import Mathlib

/-!
Shallow embedding of the clod opencode sound-effects plugin
(sound-configuration resolution and event dispatch).

JavaScript records (objects with string keys) are modelled as association
lists `List (String × α)`; `recordGet` models property lookup and
`recordSet` models property assignment (an existing key keeps its position
and gets the new value, a fresh key is appended), matching the insertion
semantics of JS objects iterated by Object.entries.

The JS string primitives used by the code (`startsWith`, `endsWith`,
`slice`, `split("/")`) are modelled as structurally recursive functions on
the character list of the string, with the same semantics.
-/

/-- JS `s.startsWith(pre)`. -/
def strStartsWith (s pre : String) : Bool :=
  pre.data.isPrefixOf s.data

/-- JS `s.endsWith(suf)`. -/
def strEndsWith (s suf : String) : Bool :=
  suf.data.isSuffixOf s.data

/-- JS `s.slice(n)`: drop the first `n` characters. -/
def strDrop (s : String) (n : Nat) : String :=
  ⟨s.data.drop n⟩

/-- JS `split("/")` on a character list: maximal runs between slashes,
keeping empty runs (so `"/a/b/"` splits into `["", "a", "b", ""]`). -/
def splitSlash : List Char → List (List Char)
  | [] => [[]]
  | c :: rest =>
    match splitSlash rest with
    | [] => if c = '/' then [[], []] else [[c]]
    | h :: t => if c = '/' then [] :: h :: t else (c :: h) :: t

/-- JS `s.split("/")`. -/
def strSplit (s : String) : List String :=
  (splitSlash s.data).map (fun l => ⟨l⟩)

/-- A sound entry: either a bare filename string or an object with a
`path` field (`type SoundEntry = string | \x7b path: string \x7d`). -/
inductive SoundEntry where
  | str (s : String)
  | obj (path : String)
  deriving DecidableEq, Repr

/-- The `opencode` section of a sound pack: optional `events` and `hooks`
records mapping keys to sound entries. -/
structure OpencodeSection where
  events : Option (List (String × SoundEntry))
  hooks : Option (List (String × SoundEntry))
  deriving DecidableEq, Repr

/-- The SoundPack document: optional `$schema` (here `schema`), `version`,
`baseDir`, `opencode` and `claude` fields. -/
structure SoundPack where
  schema : Option String
  version : Option Int
  baseDir : Option String
  opencode : Option OpencodeSection
  claude : Option (List (String × List (String × SoundEntry)))
  deriving DecidableEq, Repr

/-- A resolved value: an object with a single `path` field. -/
structure PathEntry where
  path : String
  deriving DecidableEq, Repr

/-- The resolved sound configuration: `events` and `hooks` records from
string keys to `\x7b path \x7d` objects. -/
structure SoundConfig where
  events : List (String × PathEntry)
  hooks : List (String × PathEntry)
  deriving DecidableEq, Repr

/-- `const DEFAULT_BASE_DIR = "~/.claude/sounds";` -/
def DEFAULT_BASE_DIR : String := "~/.claude/sounds"

/-- `const raw = typeof entry === "string" ? entry : entry.path;` -/
def rawPath : SoundEntry → String
  | SoundEntry.str s => s
  | SoundEntry.obj p => p

/-- The `normalizePath` function: empty raw path yields `""`; a raw path
starting with `/` or `~` is returned as-is; otherwise it is joined to
`baseDir` with exactly one `/` separator. -/
def normalizePath (baseDir : String) (entry : SoundEntry) : String :=
  let raw := rawPath entry
  if raw = "" then ""
  else if strStartsWith raw "/" || strStartsWith raw "~" then raw
  else if strEndsWith baseDir "/" then baseDir ++ raw
  else baseDir ++ "/" ++ raw

/-- The `expandTilde` function: when `p` starts with `~` and the HOME
environment variable is set and non-empty, replace the leading `~` with
HOME; otherwise return `p` unchanged.  `home = none` models an unset
HOME variable. -/
def expandTilde (home : Option String) (p : String) : String :=
  if strStartsWith p "~" then
    match home with
    | some h => if h = "" then p else h ++ strDrop p 1
    | none => p
  else p

/-- Outcome of `await file.json()` on one candidate, after the
truthy-object test: either the parse succeeded with a non-null structured
object (`object`), or it succeeded with something else (null, number,
string, boolean: `nonObject`).  A missing, unreadable or malformed file
throws, modelled as `Except.error` in the read function. -/
inductive ParseValue where
  | nonObject
  | object (pack : SoundPack)
  deriving DecidableEq, Repr

/-- Whether a read outcome is a successfully parsed non-null structured
object (the condition `data && typeof data === "object"`). -/
def readGivesObject : Except Unit ParseValue → Bool
  | Except.ok (ParseValue.object _) => true
  | _ => false

/-- The `loadSoundPack` function: try each candidate path in order
(after tilde expansion); on a thrown read/parse error, ignore it and try
the next; on a parse that is not a non-null object, fall through to the
next; return the first document that is a non-null object, and `none`
when no candidate succeeds.  The `Except` result type records whether an
error escapes to the caller (it never does). -/
def loadSoundPack (home : Option String) (read : String → Except Unit ParseValue) :
    List String → Except Unit (Option SoundPack)
  | [] => Except.ok none
  | p :: rest =>
    match read (expandTilde home p) with
    | Except.ok (ParseValue.object pk) => Except.ok (some pk)
    | Except.ok ParseValue.nonObject => loadSoundPack home read rest
    | Except.error _ => loadSoundPack home read rest

/-- Record lookup `m[k]`. -/
def recordGet {α : Type} (m : List (String × α)) (k : String) : Option α :=
  (m.find? (fun kv => kv.1 == k)).map (fun kv => kv.2)

/-- Record assignment `m[k] = v`: an existing key keeps its position and
receives the new value, a fresh key is appended. -/
def recordSet {α : Type} (m : List (String × α)) (k : String) (v : α) :
    List (String × α) :=
  if m.any (fun kv => kv.1 == k) then
    m.map (fun kv => if kv.1 == k then (k, v) else kv)
  else m ++ [(k, v)]

/-- One iteration of the entry loop of `buildConfigFromPack`: normalize
the path of the entry and store it under the key when the normalized
path is non-empty (`if (path) \x7b events[eventType] = \x7b path \x7d \x7d`). -/
def buildStep (baseDir : String) (acc : List (String × PathEntry))
    (kv : String × SoundEntry) : List (String × PathEntry) :=
  let path := normalizePath baseDir kv.2
  if path = "" then acc else recordSet acc kv.1 ⟨path⟩

/-- The entry loop of `buildConfigFromPack`: fold `buildStep` over the
entries of the record, starting from the empty record. -/
def buildRecord (baseDir : String) (entries : List (String × SoundEntry)) :
    List (String × PathEntry) :=
  entries.foldl (buildStep baseDir) []

/-- `const baseDir = pack?.baseDir || DEFAULT_BASE_DIR;` — the default is
used when the pack is null, the field is absent, or the field is the
empty string (falsy). -/
def resolveBaseDir (pack : Option SoundPack) : String :=
  match pack with
  | none => DEFAULT_BASE_DIR
  | some pk =>
    match pk.baseDir with
    | none => DEFAULT_BASE_DIR
    | some b => if b = "" then DEFAULT_BASE_DIR else b

/-- `pack?.opencode?.events`, defaulting to the empty record. -/
def packEvents (pack : Option SoundPack) : List (String × SoundEntry) :=
  match pack with
  | none => []
  | some pk =>
    match pk.opencode with
    | none => []
    | some oc => oc.events.getD []

/-- `pack?.opencode?.hooks`, defaulting to the empty record. -/
def packHooks (pack : Option SoundPack) : List (String × SoundEntry) :=
  match pack with
  | none => []
  | some pk =>
    match pk.opencode with
    | none => []
    | some oc => oc.hooks.getD []

/-- The `buildConfigFromPack` function: normalize the `events` and
`hooks` records against the base directory, and when both come out empty
inject the single default entry
`events["session.idle"] = \x7b path: DEFAULT_BASE_DIR + "/mew.wav" \x7d`. -/
def buildConfigFromPack (pack : Option SoundPack) : SoundConfig :=
  let baseDir := resolveBaseDir pack
  let events := buildRecord baseDir (packEvents pack)
  let hooks := buildRecord baseDir (packHooks pack)
  if events.isEmpty && hooks.isEmpty then
    ⟨recordSet events "session.idle" ⟨DEFAULT_BASE_DIR ++ "/mew.wav"⟩, hooks⟩
  else
    ⟨events, hooks⟩

/-- The candidate list built inside `toClodArg`: the tilde-form default
sound directory, and (when HOME is set, modelled as `home ≠ ""`) the
HOME-expanded form. -/
def clodArgPres (home : String) : List String :=
  ["~/.claude/sounds/"] ++ (if home = "" then [] else [home ++ "/.claude/sounds/"])

/-- The `toClodArg` function: strip the first matching default sound
directory form from the front of the path; on no match, fall back to the
last `/`-separated segment, or the whole path when that segment is the
empty string. -/
def toClodArg (home : String) (fullPath : String) : String :=
  match (clodArgPres home).find? (fun pre => strStartsWith fullPath pre) with
  | some pre => strDrop fullPath pre.length
  | none =>
    let parts := strSplit fullPath
    let last := parts.getLastD ""
    if last = "" then fullPath else last

/-- The `event` handler of the full plugin variant: exact single-key
lookup `soundConfig.events[event.type]`, playing the configured path when
it is present and truthy (non-empty).  The result lists the paths passed
to `playSound`. -/
def fullEventDispatch (cfg : SoundConfig) (t : String) : List String :=
  match recordGet cfg.events t with
  | some e => if e.path = "" then [] else [e.path]
  | none => []

/-- The `event` handler of the simple plugin variant
(`.opencode/plugin/sfx.ts`): iterate all configured entries and play
every one whose key equals the incoming event type.  The result lists
the paths passed to `playSound`. -/
def simpleEventDispatch (cfg : List (String × PathEntry)) (t : String) : List String :=
  cfg.filterMap (fun kv => if t = kv.1 then some kv.2.path else none)

/-- Playback arguments produced for an event in the full variant:
each dispatched path goes through `toClodArg` before being handed to the
external `clod sfx play` command. -/
def playbackArgs (home : String) (cfg : SoundConfig) (t : String) : List String :=
  (fullEventDispatch cfg t).map (toClodArg home)

/-- Replace the `claude` field of a pack. -/
def withClaude (p : SoundPack)
    (c : Option (List (String × List (String × SoundEntry)))) : SoundPack :=
  ⟨p.schema, p.version, p.baseDir, p.opencode, c⟩

/-- Replace the `baseDir` field of a pack. -/
def withBaseDir (p : SoundPack) (b : Option String) : SoundPack :=
  ⟨p.schema, p.version, b, p.opencode, p.claude⟩

/-!
Untyped layer.  `loadSoundPack` casts the parsed document with
`as SoundPack` without validation, so `buildConfigFromPack` really runs
on arbitrary JSON.  The following definitions re-embed the resolution
pipeline over a JSON value type, modelling the JS evaluation rules the
code exercises: truthiness, `typeof`, property access (undefined as
`none`, short-circuiting optional chaining), `Object.entries`, and the
TypeError thrown by `entry.path` when `entry` is `null` and by calling
`.startsWith` / `.endsWith` on a non-string.  `Except.error ()` models
such an uncaught exception reaching the caller.
-/

/-- A parsed JSON document. -/
inductive Json where
  | null
  | bool (b : Bool)
  | num (n : Int)
  | str (s : String)
  | arr (elems : List Json)
  | obj (fields : List (String × Json))

/-- JS truthiness of a JSON value. -/
def jsTruthy : Json → Bool
  | Json.null => false
  | Json.bool b => b
  | Json.num n => n != 0
  | Json.str s => s != ""
  | Json.arr _ => true
  | Json.obj _ => true

/-- `typeof x === "object"` for a JSON value (true for null, arrays and
objects). -/
def isObjectType : Json → Bool
  | Json.null => true
  | Json.arr _ => true
  | Json.obj _ => true
  | _ => false

/-- Property access `v[k]` for the non-numeric property names this code
reads: an object field when present, undefined (`none`) otherwise.
Access on null happens only behind optional chaining (`chainField`) or
is modelled as a throw where the code performs it (`normalizePathJs`). -/
def getField : Json → String → Option Json
  | Json.obj fields, k => recordGet fields k
  | _, _ => none

/-- Optional chaining `x?.k`: undefined when `x` is null or undefined,
plain property access otherwise. -/
def chainField (x : Option Json) (k : String) : Option Json :=
  match x with
  | none => none
  | some Json.null => none
  | some v => getField v k

/-- Truthiness of a possibly-undefined value (`undefined` is falsy). -/
def truthyOpt : Option Json → Bool
  | none => false
  | some v => jsTruthy v

/-- `Object.entries(v)`: the fields of an object, the indexed elements
of an array or string, nothing for other primitives. -/
def jsEntries : Json → List (String × Json)
  | Json.obj fields => fields
  | Json.arr elems => elems.enum.map (fun iv => (toString iv.1, iv.2))
  | Json.str s => s.data.enum.map (fun ic => (toString ic.1, Json.str (String.mk [ic.2])))
  | _ => []

/-- The body of `normalizePath` after `raw` is computed: `!raw` yields
`""`; a truthy non-string `raw` throws on `raw.startsWith`; a truthy
non-string `baseDir` throws on `baseDir.endsWith` in the relative
branch. -/
def normRawJs (baseDir : Json) (raw : Option Json) : Except Unit String :=
  if truthyOpt raw then
    match raw with
    | some (Json.str s) =>
      if strStartsWith s "/" || strStartsWith s "~" then Except.ok s
      else
        match baseDir with
        | Json.str b => Except.ok (if strEndsWith b "/" then b ++ s else b ++ "/" ++ s)
        | _ => Except.error ()
    | _ => Except.error ()
  else Except.ok ""

/-- `normalizePath` on an arbitrary JSON entry:
`typeof entry === "string"` takes the entry itself as `raw`, a null
entry throws on `entry.path`, anything else reads the (possibly
undefined) `path` property. -/
def normalizePathJs (baseDir : Json) (entry : Json) : Except Unit String :=
  match entry with
  | Json.str s => normRawJs baseDir (some (Json.str s))
  | Json.null => Except.error ()
  | e => normRawJs baseDir (getField e "path")

/-- The entry loop of `buildConfigFromPack` on untyped entries: a thrown
TypeError aborts the loop and propagates. -/
def buildLoopJs (baseDir : Json) :
    List (String × PathEntry) → List (String × Json) →
    Except Unit (List (String × PathEntry))
  | acc, [] => Except.ok acc
  | acc, kv :: rest =>
    match normalizePathJs baseDir kv.2 with
    | Except.error e => Except.error e
    | Except.ok path =>
      buildLoopJs baseDir (if path = "" then acc else recordSet acc kv.1 ⟨path⟩) rest

/-- One guarded section loop
(`if (pack?.opencode?.events) \x7b for ... Object.entries(...) \x7d`): a falsy
or absent section contributes the empty record. -/
def sectionRecordJs (baseDir : Json) (sec : Option Json) :
    Except Unit (List (String × PathEntry)) :=
  match sec with
  | some v => if jsTruthy v then buildLoopJs baseDir [] (jsEntries v) else Except.ok []
  | none => Except.ok []

/-- `pack?.baseDir || DEFAULT_BASE_DIR` on an untyped pack: a falsy or
absent field falls back to the default, any truthy JSON value is kept
as-is. -/
def baseDirJs (pack : Option Json) : Json :=
  match chainField pack "baseDir" with
  | some v => if jsTruthy v then v else Json.str DEFAULT_BASE_DIR
  | none => Json.str DEFAULT_BASE_DIR

/-- `buildConfigFromPack` on an untyped pack: events section first, then
hooks, each able to throw; on success the default entry is injected when
both come out empty. -/
def buildConfigFromPackJs (pack : Option Json) : Except Unit SoundConfig :=
  let baseDir := baseDirJs pack
  let oc := chainField pack "opencode"
  match sectionRecordJs baseDir (chainField oc "events") with
  | Except.error e => Except.error e
  | Except.ok events =>
    match sectionRecordJs baseDir (chainField oc "hooks") with
    | Except.error e => Except.error e
    | Except.ok hooks =>
      Except.ok
        (if events.isEmpty && hooks.isEmpty then
          ⟨recordSet events "session.idle" ⟨DEFAULT_BASE_DIR ++ "/mew.wav"⟩, hooks⟩
        else ⟨events, hooks⟩)

/-- `loadSoundPack` on untyped documents: thrown reads are swallowed,
and the `data && typeof data === "object"` test keeps only truthy
object-typed documents. -/
def loadSoundPackJs (home : Option String) (read : String → Except Unit Json) :
    List String → Except Unit (Option Json)
  | [] => Except.ok none
  | p :: rest =>
    match read (expandTilde home p) with
    | Except.error _ => loadSoundPackJs home read rest
    | Except.ok data =>
      if jsTruthy data && isObjectType data then Except.ok (some data)
      else loadSoundPackJs home read rest

/-- The startup composition on untyped documents. -/
def resolveSoundConfigJs (home : Option String) (read : String → Except Unit Json)
    (paths : List String) : Except Unit SoundConfig :=
  match loadSoundPackJs home read paths with
  | Except.error e => Except.error e
  | Except.ok pack => buildConfigFromPackJs pack

/-- The JSON document of a sound entry. -/
def entryToJson : SoundEntry → Json
  | SoundEntry.str s => Json.str s
  | SoundEntry.obj p => Json.obj [("path", Json.str p)]

/-- The JSON fields of an entry record. -/
def recordToJson (m : List (String × SoundEntry)) : List (String × Json) :=
  m.map (fun kv => (kv.1, entryToJson kv.2))

/-- The JSON document of an opencode section (optional fields are
absent, not null). -/
def ocToJson (oc : OpencodeSection) : Json :=
  Json.obj
    ((match oc.events with
      | some es => [("events", Json.obj (recordToJson es))]
      | none => []) ++
     (match oc.hooks with
      | some hs => [("hooks", Json.obj (recordToJson hs))]
      | none => []))

/-- The JSON document of a claude section. -/
def claudeToJson (c : List (String × List (String × SoundEntry))) : Json :=
  Json.obj (c.map (fun kv => (kv.1, Json.obj (recordToJson kv.2))))

/-- The JSON document of a schema-conformant pack (optional fields are
absent, not null). -/
def packToJson (pk : SoundPack) : Json :=
  Json.obj
    ((match pk.schema with
      | some s => [("$schema", Json.str s)]
      | none => []) ++
     (match pk.version with
      | some n => [("version", Json.num n)]
      | none => []) ++
     (match pk.baseDir with
      | some b => [("baseDir", Json.str b)]
      | none => []) ++
     (match pk.opencode with
      | some oc => [("opencode", ocToJson oc)]
      | none => []) ++
     (match pk.claude with
      | some c => [("claude", claudeToJson c)]
      | none => []))

/-- Record assignment does not change the key list when the key is
already present, and appends the key when it is fresh. -/
theorem recordSet_keys_of_mem {α : Type} (m : List (String × α)) (k : String) (v : α)
    (h : m.any (fun kv => kv.1 == k) = true) :
    (recordSet m k v).map Prod.fst = m.map Prod.fst := by
  unfold recordSet
  rw [if_pos h, List.map_map]
  apply List.map_congr_left
  intro kv _
  simp only [Function.comp_apply]
  split
  · next hbeq => exact (eq_of_beq hbeq).symm
  · rfl

/-- Record assignment preserves the no-duplicate-keys invariant. -/
theorem recordSet_nodup {α : Type} (m : List (String × α)) (k : String) (v : α)
    (h : (m.map Prod.fst).Nodup) : ((recordSet m k v).map Prod.fst).Nodup := by
  by_cases hmem : m.any (fun kv => kv.1 == k) = true
  · rw [recordSet_keys_of_mem m k v hmem]
    exact h
  · unfold recordSet
    rw [if_neg hmem, List.map_append]
    have hk : k ∉ m.map Prod.fst := by
      intro hin
      apply hmem
      rw [List.any_eq_true]
      rcases List.mem_map.mp hin with ⟨kv, hkv, hfst⟩
      exact ⟨kv, hkv, by simp [hfst]⟩
    simp [List.nodup_append, h, hk]

/-- Every element of `recordSet m k v` is an element of `m` or is the
new pair `(k, v)`. -/
theorem recordSet_mem {α : Type} (m : List (String × α)) (k : String) (v : α)
    (kv : String × α) (h : kv ∈ recordSet m k v) : kv ∈ m ∨ kv = (k, v) := by
  unfold recordSet at h
  split at h
  · rcases List.mem_map.mp h with ⟨kv0, hkv0, heq⟩
    by_cases hb : kv0.1 == k
    · right
      rw [if_pos hb] at heq
      exact heq.symm
    · left
      rw [if_neg hb] at heq
      rw [← heq]
      exact hkv0
  · rcases List.mem_append.mp h with h | h
    · left; exact h
    · right; simpa using h

/-- One loop iteration preserves both record invariants: no duplicate
keys, and every stored path is non-empty. -/
theorem buildStep_inv (baseDir : String) (acc : List (String × PathEntry))
    (kv : String × SoundEntry)
    (h1 : (acc.map Prod.fst).Nodup) (h2 : ∀ x ∈ acc, x.2.path ≠ "") :
    ((buildStep baseDir acc kv).map Prod.fst).Nodup ∧
      ∀ x ∈ buildStep baseDir acc kv, x.2.path ≠ "" := by
  simp only [buildStep]
  split
  · exact ⟨h1, h2⟩
  · next hpath =>
    refine ⟨recordSet_nodup _ _ _ h1, ?_⟩
    intro x hx
    rcases recordSet_mem _ _ _ _ hx with hx | hx
    · exact h2 x hx
    · rw [hx]
      exact hpath

/-- The entry loop preserves both record invariants. -/
theorem foldl_buildStep_inv (baseDir : String) :
    ∀ (entries : List (String × SoundEntry)) (acc : List (String × PathEntry)),
      (acc.map Prod.fst).Nodup → (∀ x ∈ acc, x.2.path ≠ "") →
      ((entries.foldl (buildStep baseDir) acc).map Prod.fst).Nodup ∧
        ∀ x ∈ entries.foldl (buildStep baseDir) acc, x.2.path ≠ ""
  | [], _, h1, h2 => ⟨h1, h2⟩
  | e :: es, acc, h1, h2 => by
    rw [List.foldl_cons]
    have h := buildStep_inv baseDir acc e h1 h2
    exact foldl_buildStep_inv baseDir es _ h.1 h.2

/-- `buildRecord` yields a record with no duplicate keys in which every
stored path is non-empty. -/
theorem buildRecord_inv (baseDir : String) (entries : List (String × SoundEntry)) :
    ((buildRecord baseDir entries).map Prod.fst).Nodup ∧
      ∀ x ∈ buildRecord baseDir entries, x.2.path ≠ "" :=
  foldl_buildStep_inv baseDir entries [] (by simp) (by simp)

/-- Both records of a resolved configuration have no duplicate keys and
only non-empty paths, for every pack. -/
theorem buildConfig_inv (pack : Option SoundPack) :
    (((buildConfigFromPack pack).events.map Prod.fst).Nodup ∧
      ∀ x ∈ (buildConfigFromPack pack).events, x.2.path ≠ "") ∧
    (((buildConfigFromPack pack).hooks.map Prod.fst).Nodup ∧
      ∀ x ∈ (buildConfigFromPack pack).hooks, x.2.path ≠ "") := by
  have hev := buildRecord_inv (resolveBaseDir pack) (packEvents pack)
  have hhk := buildRecord_inv (resolveBaseDir pack) (packHooks pack)
  simp only [buildConfigFromPack]
  split
  · next hcond =>
    have hand : (buildRecord (resolveBaseDir pack) (packEvents pack)).isEmpty = true ∧
        (buildRecord (resolveBaseDir pack) (packHooks pack)).isEmpty = true := by
      simpa using hcond
    have he : buildRecord (resolveBaseDir pack) (packEvents pack) = [] :=
      List.isEmpty_iff.mp hand.1
    rw [he]
    have hset : recordSet ([] : List (String × PathEntry)) "session.idle"
        ⟨DEFAULT_BASE_DIR ++ "/mew.wav"⟩ =
        [("session.idle", ⟨DEFAULT_BASE_DIR ++ "/mew.wav"⟩)] := rfl
    dsimp only
    rw [hset]
    refine ⟨⟨by simp, ?_⟩, hhk⟩
    intro x hx
    rw [List.mem_singleton.mp hx]
    decide
  · exact ⟨hev, hhk⟩

/-- On a record with no duplicate keys and no empty stored paths, the
iterate-all-keys loop produces exactly what the single-key lookup with a
truthiness guard produces. -/
theorem dispatch_eq_list (t : String) :
    ∀ m : List (String × PathEntry), (m.map Prod.fst).Nodup →
      (∀ x ∈ m, x.2.path ≠ "") →
      simpleEventDispatch m t =
        (match recordGet m t with
          | some e => if e.path = "" then [] else [e.path]
          | none => [])
  | [], _, _ => rfl
  | (k, v) :: rest, hnd, hne => by
    have hnd' : k ∉ rest.map Prod.fst ∧ (rest.map Prod.fst).Nodup := by
      rw [List.map_cons] at hnd
      exact List.nodup_cons.mp hnd
    by_cases hk : t = k
    · subst hk
      have hknotin : t ∉ rest.map Prod.fst := hnd'.1
      have hrest : simpleEventDispatch rest t = [] := by
        simp only [simpleEventDispatch, List.filterMap_eq_nil_iff]
        intro kv hkv
        have hne2 : t ≠ kv.1 := by
          intro heq
          exact hknotin (List.mem_map.mpr ⟨kv, hkv, heq.symm⟩)
        simp [hne2]
      have hvne : v.path ≠ "" := hne (t, v) (List.mem_cons_self _ _)
      simp only [simpleEventDispatch, List.filterMap_cons, recordGet] at hrest ⊢
      simp [hrest, hvne]
    · have hbeq : (k == t) = false := by
        simp
        intro heq
        exact hk heq.symm
      have ih := dispatch_eq_list t rest hnd'.2
        (fun x hx => hne x (List.mem_cons_of_mem _ hx))
      simp only [simpleEventDispatch, List.filterMap_cons, recordGet] at ih ⊢
      simp [hk, hbeq, ih]

/-- C1: for every pack (including pack = none) whose events and hooks
records are both empty after normalization, `buildConfigFromPack`
returns empty hooks and exactly one events entry, at key
`session.idle`, with path `~/.claude/sounds/mew.wav`. -/
theorem buildConfigFromPack_default (pack : Option SoundPack)
    (he : buildRecord (resolveBaseDir pack) (packEvents pack) = [])
    (hh : buildRecord (resolveBaseDir pack) (packHooks pack) = []) :
    buildConfigFromPack pack =
      ⟨[("session.idle", ⟨"~/.claude/sounds/mew.wav"⟩)], []⟩ := by
  simp only [buildConfigFromPack]
  rw [he, hh]
  decide

/-- Witness for C1 at the concrete input pack = none. -/
theorem buildConfigFromPack_default_witness :
    buildConfigFromPack none =
      ⟨[("session.idle", ⟨"~/.claude/sounds/mew.wav"⟩)], []⟩ :=
  buildConfigFromPack_default none rfl rfl

/-- C2: on every configuration resolved by `buildConfigFromPack`, the
iterate-all-keys event handler of the simple plugin variant and the
single-key-lookup event handler of the full plugin variant request
playback of exactly the same paths for every incoming event type. -/
theorem dispatch_variants_equiv (pack : Option SoundPack) (t : String) :
    simpleEventDispatch (buildConfigFromPack pack).events t =
      fullEventDispatch (buildConfigFromPack pack) t := by
  have h := buildConfig_inv pack
  rw [dispatch_eq_list t (buildConfigFromPack pack).events h.1.1 h.1.2]
  rfl

/-- C3: a non-empty relative raw path (not starting with `/` or `~`)
normalizes to the base directory joined with exactly one `/` separator;
and the pack with baseDir `/snd` and event entry `mew.wav` resolves
`session.idle` to `/snd/mew.wav`. -/
theorem normalizePath_relative (baseDir : String) (entry : SoundEntry)
    (hne : rawPath entry ≠ "")
    (hs : strStartsWith (rawPath entry) "/" = false)
    (ht : strStartsWith (rawPath entry) "~" = false) :
    (normalizePath baseDir entry =
      if strEndsWith baseDir "/" then baseDir ++ rawPath entry
      else baseDir ++ "/" ++ rawPath entry) ∧
    recordGet
      (buildConfigFromPack
        (some ⟨none, none, some "/snd",
          some ⟨some [("session.idle", SoundEntry.str "mew.wav")], none⟩, none⟩)).events
      "session.idle" = some ⟨"/snd/mew.wav"⟩ := by
  constructor
  · simp only [normalizePath]
    rw [if_neg hne, hs, ht]
    simp
  · decide

/-- Witness for C3 at baseDir `/snd` and raw entry `mew.wav`. -/
theorem normalizePath_relative_witness :
    normalizePath "/snd" (SoundEntry.str "mew.wav") = "/snd/mew.wav" := by
  rw [(normalizePath_relative "/snd" (SoundEntry.str "mew.wav")
    (by decide) (by decide) (by decide)).1]
  decide

/-- C4: a raw path starting with `/` or `~` is returned unchanged by
`normalizePath`, for every base directory. -/
theorem normalizePath_absolute (baseDir : String) (entry : SoundEntry)
    (h : strStartsWith (rawPath entry) "/" = true ∨
      strStartsWith (rawPath entry) "~" = true) :
    normalizePath baseDir entry = rawPath entry := by
  have hne : rawPath entry ≠ "" := by
    intro he
    rcases h with h | h <;> rw [he] at h <;> exact absurd h (by decide)
  have hor : (strStartsWith (rawPath entry) "/" || strStartsWith (rawPath entry) "~") = true := by
    rcases h with h | h <;> simp [h]
  simp only [normalizePath]
  rw [if_neg hne, if_pos hor]

/-- Witness for C4 at base directory `base` and the absolute raw path
`/abs.wav`. -/
theorem normalizePath_absolute_witness :
    normalizePath "base" (SoundEntry.str "/abs.wav") = "/abs.wav" :=
  normalizePath_absolute "base" (SoundEntry.str "/abs.wav") (Or.inl (by decide))

/-- C5: every value stored in the events or hooks record of a resolved
configuration is a non-empty path (so an entry normalizing to the empty
path is never present); and the pack whose only entry is
`events["foo"] = \x7b path: "" \x7d` resolves to an events record with no
`foo` key. -/
theorem resolved_entries_nonempty (pack : Option SoundPack) (k : String) (v : PathEntry) :
    (recordGet (buildConfigFromPack pack).events k = some v → v.path ≠ "") ∧
    (recordGet (buildConfigFromPack pack).hooks k = some v → v.path ≠ "") ∧
    recordGet
      (buildConfigFromPack
        (some ⟨none, none, none,
          some ⟨some [("foo", SoundEntry.obj "")], none⟩, none⟩)).events
      "foo" = none := by
  refine ⟨?_, ?_, by decide⟩
  · intro h
    rcases Option.map_eq_some'.mp h with ⟨kv, hfind, hv⟩
    rw [← hv]
    exact (buildConfig_inv pack).1.2 kv (List.mem_of_find?_eq_some hfind)
  · intro h
    rcases Option.map_eq_some'.mp h with ⟨kv, hfind, hv⟩
    rw [← hv]
    exact (buildConfig_inv pack).2.2 kv (List.mem_of_find?_eq_some hfind)

/-- Witness for C5 at pack = none and the default entry. -/
theorem resolved_entries_nonempty_witness :
    ("~/.claude/sounds/mew.wav" : String) ≠ "" :=
  (resolved_entries_nonempty none "session.idle" ⟨"~/.claude/sounds/mew.wav"⟩).1
    (by decide)

/-- C9: the resolved configuration does not depend on the `claude`
section of the pack: two packs differing only there resolve to
structurally equal configurations. -/
theorem claude_section_ignored (p : SoundPack)
    (c1 c2 : Option (List (String × List (String × SoundEntry)))) :
    buildConfigFromPack (some (withClaude p c1)) =
      buildConfigFromPack (some (withClaude p c2)) := rfl

/-- C10: a pack whose `baseDir` field is the empty string resolves with
the default base directory, exactly as if the field were absent. -/
theorem emptyBaseDir_uses_default (p : SoundPack) :
    resolveBaseDir (some (withBaseDir p (some ""))) = DEFAULT_BASE_DIR ∧
    buildConfigFromPack (some (withBaseDir p (some ""))) =
      buildConfigFromPack (some (withBaseDir p none)) :=
  ⟨rfl, rfl⟩

/-- A read outcome passes the truthy-object test exactly when it is a
successfully parsed structured object. -/
theorem readGivesObject_eq_true_iff (r : Except Unit ParseValue) :
    readGivesObject r = true ↔ ∃ pk, r = Except.ok (ParseValue.object pk) := by
  cases r with
  | error e => simp [readGivesObject]
  | ok v => cases v <;> simp [readGivesObject]

/-- When the head candidate parses to a structured object, the loop
stops and returns it. -/
theorem loadSoundPack_cons_of_object (home : Option String)
    (read : String → Except Unit ParseValue) (p : String) (ps : List String)
    (pk : SoundPack) (h : read (expandTilde home p) = Except.ok (ParseValue.object pk)) :
    loadSoundPack home read (p :: ps) = Except.ok (some pk) := by
  simp only [loadSoundPack, h]

/-- When the head candidate is missing, unreadable, malformed, or parses
to a non-object, the loop moves on to the remaining candidates. -/
theorem loadSoundPack_cons_of_notObject (home : Option String)
    (read : String → Except Unit ParseValue) (p : String) (ps : List String)
    (h : readGivesObject (read (expandTilde home p)) = false) :
    loadSoundPack home read (p :: ps) = loadSoundPack home read ps := by
  simp only [loadSoundPack]
  cases hr : read (expandTilde home p) with
  | error e => rfl
  | ok v =>
    cases v with
    | nonObject => rfl
    | object pk0 =>
      rw [hr] at h
      simp [readGivesObject] at h

/-- The loop yields `none` exactly when no candidate parses to a
structured object. -/
theorem loadSoundPack_none_iff (home : Option String)
    (read : String → Except Unit ParseValue) :
    ∀ paths : List String,
      (loadSoundPack home read paths = Except.ok none ↔
        ∀ q ∈ paths, readGivesObject (read (expandTilde home q)) = false)
  | [] => by simp [loadSoundPack]
  | p :: ps => by
    by_cases hro : readGivesObject (read (expandTilde home p)) = true
    · rcases (readGivesObject_eq_true_iff _).mp hro with ⟨pk0, hpk⟩
      rw [loadSoundPack_cons_of_object home read p ps pk0 hpk]
      constructor
      · intro h
        simp at h
      · intro h
        have hp := h p (List.mem_cons_self p ps)
        rw [hro] at hp
        exact Bool.noConfusion hp
    · have hfalse : readGivesObject (read (expandTilde home p)) = false := by
        simpa using hro
      rw [loadSoundPack_cons_of_notObject home read p ps hfalse,
        loadSoundPack_none_iff home read ps]
      simp [List.forall_mem_cons, hfalse]

/-- The loop yields a pack exactly when that pack is the parse of the
first candidate giving a structured object, every earlier candidate
failing the test. -/
theorem loadSoundPack_some_iff (home : Option String)
    (read : String → Except Unit ParseValue) (pk : SoundPack) :
    ∀ paths : List String,
      (loadSoundPack home read paths = Except.ok (some pk) ↔
        ∃ pre q post, paths = pre ++ q :: post ∧
          read (expandTilde home q) = Except.ok (ParseValue.object pk) ∧
          ∀ r ∈ pre, readGivesObject (read (expandTilde home r)) = false)
  | [] => by
    constructor
    · intro h
      simp [loadSoundPack] at h
    · rintro ⟨pre, q, post, heq, -, -⟩
      exact (List.cons_ne_nil q post (List.append_eq_nil.mp heq.symm).2).elim
  | p :: ps => by
    by_cases hro : readGivesObject (read (expandTilde home p)) = true
    · rcases (readGivesObject_eq_true_iff _).mp hro with ⟨pk0, hpk⟩
      rw [loadSoundPack_cons_of_object home read p ps pk0 hpk]
      constructor
      · intro h
        have hpk0 : pk0 = pk := by simpa using h
        subst hpk0
        exact ⟨[], p, ps, rfl, hpk, fun r hr0 => absurd hr0 (List.not_mem_nil r)⟩
      · rintro ⟨pre, q, post, heq, hq, hpre⟩
        cases pre with
        | nil =>
          rw [List.nil_append] at heq
          injection heq with h1 h2
          cases h1
          rw [hq] at hpk
          have : pk = pk0 := by simpa using hpk
          rw [this]
        | cons r0 pre0 =>
          rw [List.cons_append] at heq
          injection heq with h1 h2
          cases h1
          have hbad := hpre p (List.mem_cons_self p pre0)
          simp [hbad] at hro
    · have hfalse : readGivesObject (read (expandTilde home p)) = false := by
        simpa using hro
      rw [loadSoundPack_cons_of_notObject home read p ps hfalse,
        loadSoundPack_some_iff home read pk ps]
      constructor
      · rintro ⟨pre, q, post, heq, hq, hpre⟩
        refine ⟨p :: pre, q, post, by rw [List.cons_append, heq], hq, ?_⟩
        intro r hr0
        rcases List.mem_cons.mp hr0 with hr0 | hr0
        · rw [hr0]
          exact hfalse
        · exact hpre r hr0
      · rintro ⟨pre, q, post, heq, hq, hpre⟩
        cases pre with
        | nil =>
          rw [List.nil_append] at heq
          injection heq with h1 h2
          cases h1
          rw [hq] at hfalse
          simp [readGivesObject] at hfalse
        | cons r0 pre0 =>
          rw [List.cons_append] at heq
          injection heq with h1 h2
          exact ⟨pre0, q, post, h2, hq, fun r hr0 => hpre r (List.mem_cons_of_mem _ hr0)⟩

/-- C6: `loadSoundPack` returns the parsed document of the first
candidate that reads and deserializes to a non-null structured object,
skipping every earlier candidate that fails the read, the parse, or the
object test, and returns `none` when no candidate succeeds. -/
theorem loadSoundPack_first_object (home : Option String)
    (read : String → Except Unit ParseValue) (paths : List String) :
    (∀ pk, loadSoundPack home read paths = Except.ok (some pk) ↔
      ∃ pre q post, paths = pre ++ q :: post ∧
        read (expandTilde home q) = Except.ok (ParseValue.object pk) ∧
        ∀ r ∈ pre, readGivesObject (read (expandTilde home r)) = false) ∧
    (loadSoundPack home read paths = Except.ok none ↔
      ∀ q ∈ paths, readGivesObject (read (expandTilde home q)) = false) :=
  ⟨fun pk => loadSoundPack_some_iff home read pk paths,
    loadSoundPack_none_iff home read paths⟩

/-- Looking up `opencode` in the document of a pack yields its encoded
opencode section. -/
theorem chainField_packToJson_opencode (pk : SoundPack) :
    chainField (some (packToJson pk)) "opencode" = pk.opencode.map ocToJson := by
  rcases pk with ⟨s, v, b, oc, c⟩
  cases s <;> cases v <;> cases b <;> cases oc <;> cases c <;> rfl

/-- Looking up `baseDir` in the document of a pack yields its encoded
base directory. -/
theorem chainField_packToJson_baseDir (pk : SoundPack) :
    chainField (some (packToJson pk)) "baseDir" = pk.baseDir.map Json.str := by
  rcases pk with ⟨s, v, b, oc, c⟩
  cases s <;> cases v <;> cases b <;> cases oc <;> cases c <;> rfl

/-- Looking up `events` in the document of an opencode section yields
its encoded events record. -/
theorem chainField_ocToJson_events (oc : OpencodeSection) :
    chainField (some (ocToJson oc)) "events" =
      oc.events.map (fun es => Json.obj (recordToJson es)) := by
  rcases oc with ⟨es, hs⟩
  cases es <;> cases hs <;> rfl

/-- Looking up `hooks` in the document of an opencode section yields its
encoded hooks record. -/
theorem chainField_ocToJson_hooks (oc : OpencodeSection) :
    chainField (some (ocToJson oc)) "hooks" =
      oc.hooks.map (fun hs => Json.obj (recordToJson hs)) := by
  rcases oc with ⟨es, hs⟩
  cases es <;> cases hs <;> rfl

/-- The untyped base-directory computation agrees with the typed one on
the document of a pack. -/
theorem baseDirJs_typed (pk : SoundPack) :
    baseDirJs (some (packToJson pk)) = Json.str (resolveBaseDir (some pk)) := by
  simp only [baseDirJs, chainField_packToJson_baseDir]
  cases hb : pk.baseDir with
  | none => simp [resolveBaseDir, hb]
  | some b =>
    by_cases hbe : b = ""
    · subst hbe
      simp [resolveBaseDir, hb, jsTruthy]
    · simp [resolveBaseDir, hb, jsTruthy, hbe]

/-- The untyped raw-path continuation on a string raw value agrees with
the typed normalization and never throws. -/
theorem normRawJs_str (bd s : String) :
    normRawJs (Json.str bd) (some (Json.str s)) =
      Except.ok (if s = "" then ""
        else if strStartsWith s "/" || strStartsWith s "~" then s
        else if strEndsWith bd "/" then bd ++ s else bd ++ "/" ++ s) := by
  by_cases hs : s = ""
  · subst hs
    rfl
  · have ht : truthyOpt (some (Json.str s)) = true := by
      simp [truthyOpt, jsTruthy, hs]
    simp only [normRawJs, ht, if_true, if_neg hs]
    split <;> rfl

/-- On the document of a schema-conformant entry, the untyped
`normalizePath` never throws and agrees with the typed one. -/
theorem normalizePathJs_typed (bd : String) (e : SoundEntry) :
    normalizePathJs (Json.str bd) (entryToJson e) = Except.ok (normalizePath bd e) := by
  cases e with
  | str s =>
    rw [show normalizePathJs (Json.str bd) (entryToJson (SoundEntry.str s)) =
        normRawJs (Json.str bd) (some (Json.str s)) from rfl,
      normRawJs_str]
    rfl
  | obj p =>
    rw [show normalizePathJs (Json.str bd) (entryToJson (SoundEntry.obj p)) =
        normRawJs (Json.str bd) (some (Json.str p)) from rfl,
      normRawJs_str]
    rfl

/-- On the document of a schema-conformant entry record, the untyped
entry loop never throws and agrees with the typed one. -/
theorem buildLoopJs_typed (bd : String) :
    ∀ (entries : List (String × SoundEntry)) (acc : List (String × PathEntry)),
      buildLoopJs (Json.str bd) acc (recordToJson entries) =
        Except.ok (entries.foldl (buildStep bd) acc)
  | [], _ => rfl
  | kv :: rest, acc => by
    simp only [recordToJson, List.map_cons, buildLoopJs, List.foldl_cons,
      normalizePathJs_typed bd kv.2]
    exact buildLoopJs_typed bd rest (buildStep bd acc kv)

/-- On an encoded optional section, the untyped guarded section loop
never throws and agrees with the typed `buildRecord`. -/
theorem sectionRecordJs_typed (bd : String)
    (esOpt : Option (List (String × SoundEntry))) :
    sectionRecordJs (Json.str bd) (esOpt.map (fun es => Json.obj (recordToJson es))) =
      Except.ok (buildRecord bd (esOpt.getD [])) := by
  cases esOpt with
  | none => rfl
  | some es =>
    simp only [Option.map_some', sectionRecordJs, jsTruthy, if_true, jsEntries,
      Option.getD_some]
    exact buildLoopJs_typed bd es []

/-- On the document of every schema-conformant pack, the untyped
resolution never throws and agrees with the typed one. -/
theorem buildConfigFromPackJs_typed (pk : SoundPack) :
    buildConfigFromPackJs (some (packToJson pk)) =
      Except.ok (buildConfigFromPack (some pk)) := by
  simp only [buildConfigFromPackJs, baseDirJs_typed, chainField_packToJson_opencode]
  cases hocv : pk.opencode with
  | none =>
    simp [chainField, sectionRecordJs, buildConfigFromPack, packEvents, packHooks,
      hocv, buildRecord]
  | some oc =>
    simp only [Option.map_some', chainField_ocToJson_events, chainField_ocToJson_hooks,
      sectionRecordJs_typed]
    simp [buildConfigFromPack, packEvents, packHooks, hocv, buildRecord]

/-- The untyped loop always returns normally for every candidate list
and every read behaviour (the catch swallows thrown reads). -/
theorem loadSoundPackJs_isOk (home : Option String)
    (read : String → Except Unit Json) :
    ∀ paths : List String, ∃ r, loadSoundPackJs home read paths = Except.ok r
  | [] => ⟨none, rfl⟩
  | p :: ps => by
    simp only [loadSoundPackJs]
    cases hr : read (expandTilde home p) with
    | error e => exact loadSoundPackJs_isOk home read ps
    | ok data =>
      by_cases hd : (jsTruthy data && isObjectType data) = true
      · exact ⟨some data, by simp [hd]⟩
      · simp only [hd, if_false, Bool.false_eq_true]
        exact loadSoundPackJs_isOk home read ps

/-- When every candidate read throws, the untyped loop yields `none`. -/
theorem loadSoundPackJs_none_of_errors (home : Option String)
    (read : String → Except Unit Json) :
    ∀ paths : List String,
      (∀ q ∈ paths, ∃ e, read (expandTilde home q) = Except.error e) →
      loadSoundPackJs home read paths = Except.ok none
  | [], _ => rfl
  | p :: ps, h => by
    rcases h p (List.mem_cons_self p ps) with ⟨e, he⟩
    simp only [loadSoundPackJs, he]
    exact loadSoundPackJs_none_of_errors home read ps
      (fun q hq => h q (List.mem_cons_of_mem _ hq))

/-- C8 counterexample: the parseable document
`\x7b"opencode":\x7b"events":\x7b"a":null\x7d\x7d\x7d` is a non-null structured
object, so `loadSoundPack` returns it, and `buildConfigFromPack` then
throws evaluating `entry.path` on null: resolution propagates an
exception to its caller on this pack document. -/
theorem resolution_raises_on_null_entry :
    loadSoundPackJs none
        (fun _ => Except.ok (Json.obj [("opencode",
          Json.obj [("events", Json.obj [("a", Json.null)])])])) ["p"] =
      Except.ok (some (Json.obj [("opencode",
        Json.obj [("events", Json.obj [("a", Json.null)])])])) ∧
    buildConfigFromPackJs
        (some (Json.obj [("opencode",
          Json.obj [("events", Json.obj [("a", Json.null)])])])) =
      Except.error () ∧
    resolveSoundConfigJs none
        (fun _ => Except.ok (Json.obj [("opencode",
          Json.obj [("events", Json.obj [("a", Json.null)])])])) ["p"] =
      Except.error () :=
  ⟨rfl, rfl, rfl⟩

/-- C8 (amended): `loadSoundPack` returns normally for every candidate
list and every read behaviour; when every candidate read throws,
resolution degrades to the default configuration; and on every pack
document conforming to the SoundPack schema, `buildConfigFromPack`
returns normally, with the typed result.  (Resolution is not total on
arbitrary parseable documents: see the counterexample.) -/
theorem resolution_errors_characterized (home : Option String)
    (read : String → Except Unit Json) (paths : List String) :
    (∃ r, loadSoundPackJs home read paths = Except.ok r) ∧
    ((∀ q ∈ paths, ∃ e, read (expandTilde home q) = Except.error e) →
      resolveSoundConfigJs home read paths = Except.ok (buildConfigFromPack none)) ∧
    (∀ pk : SoundPack,
      buildConfigFromPackJs (some (packToJson pk)) =
        Except.ok (buildConfigFromPack (some pk))) := by
  refine ⟨loadSoundPackJs_isOk home read paths, ?_, fun pk => buildConfigFromPackJs_typed pk⟩
  intro h
  have hnone := loadSoundPackJs_none_of_errors home read paths h
  simp only [resolveSoundConfigJs, hnone]
  rfl

/-- Witness for C8: with a single candidate whose read always throws,
resolution returns the default configuration. -/
theorem resolution_errors_characterized_witness :
    resolveSoundConfigJs none (fun _ => Except.error ()) ["a"] =
      Except.ok (buildConfigFromPack none) :=
  (resolution_errors_characterized none (fun _ => Except.error ()) ["a"]).2.1
    (fun _ _ => ⟨(), rfl⟩)

/-- C7 counterexample: on the resolved path `/a/b/`, which starts with
no default sound directory form, the playback argument is the whole
path, although the final `/`-separated segment is the empty string. -/
theorem toClodArg_not_last_segment :
    toClodArg "" "/a/b/" = "/a/b/" ∧ (strSplit "/a/b/").getLastD "" = "" := by
  decide

/-- C7 (amended): the playback argument strips the tilde-form default
sound directory, or else the HOME-expanded form when HOME is set; on no
matching form it is the final `/`-separated segment when that segment is
non-empty and the whole path otherwise; and the default configuration
dispatches `session.idle` to exactly one playback request `mew.wav`. -/
theorem toClodArg_spec (home p : String) :
    (strStartsWith p "~/.claude/sounds/" = true →
      toClodArg home p = strDrop p ("~/.claude/sounds/").length) ∧
    (strStartsWith p "~/.claude/sounds/" = false → home ≠ "" →
      strStartsWith p (home ++ "/.claude/sounds/") = true →
      toClodArg home p = strDrop p ((home ++ "/.claude/sounds/").length)) ∧
    (strStartsWith p "~/.claude/sounds/" = false →
      (home = "" ∨ strStartsWith p (home ++ "/.claude/sounds/") = false) →
      toClodArg home p =
        (if (strSplit p).getLastD "" = "" then p else (strSplit p).getLastD "")) ∧
    playbackArgs home (buildConfigFromPack none) "session.idle" = ["mew.wav"] := by
  refine ⟨?_, ?_, ?_, ?_⟩
  · intro h
    have hf : (clodArgPres home).find? (fun pre => strStartsWith p pre) =
        some "~/.claude/sounds/" := by
      simp only [clodArgPres, List.singleton_append]
      exact List.find?_cons_of_pos _ h
    simp [toClodArg, hf]
  · intro h1 h2 h3
    have hf : (clodArgPres home).find? (fun pre => strStartsWith p pre) =
        some (home ++ "/.claude/sounds/") := by
      simp only [clodArgPres, if_neg h2, List.singleton_append]
      rw [List.find?_cons_of_neg _ (by simp [h1])]
      exact List.find?_cons_of_pos _ h3
    simp [toClodArg, hf]
  · intro h1 hcase
    have hf : (clodArgPres home).find? (fun pre => strStartsWith p pre) = none := by
      by_cases hh : home = ""
      · simp only [clodArgPres, if_pos hh, List.append_nil]
        rw [List.find?_cons_of_neg _ (by simp [h1])]
        rfl
      · rcases hcase with hcase | hcase
        · exact absurd hcase hh
        · simp only [clodArgPres, if_neg hh, List.singleton_append]
          rw [List.find?_cons_of_neg _ (by simp [h1]),
            List.find?_cons_of_neg _ (by simp [hcase])]
          rfl
    simp [toClodArg, hf]
  · have hev : fullEventDispatch (buildConfigFromPack none) "session.idle" =
        ["~/.claude/sounds/mew.wav"] := by decide
    have hstart : strStartsWith "~/.claude/sounds/mew.wav" "~/.claude/sounds/" = true := by
      decide
    have hf : (clodArgPres home).find?
        (fun pre => strStartsWith "~/.claude/sounds/mew.wav" pre) =
        some "~/.claude/sounds/" := by
      simp only [clodArgPres, List.singleton_append]
      exact List.find?_cons_of_pos _ hstart
    have harg : toClodArg home "~/.claude/sounds/mew.wav" = "mew.wav" := by
      simp only [toClodArg, hf]
      decide
    simp [playbackArgs, hev, harg]

/-- Witness for C7 at a path under the tilde-form default directory and
at a path outside both forms. -/
theorem toClodArg_spec_witness :
    toClodArg "" "~/.claude/sounds/mew.wav" =
      strDrop "~/.claude/sounds/mew.wav" ("~/.claude/sounds/").length ∧
    toClodArg "" "/x/y.wav" =
      (if (strSplit "/x/y.wav").getLastD "" = "" then "/x/y.wav"
        else (strSplit "/x/y.wav").getLastD "") :=
  ⟨(toClodArg_spec "" "~/.claude/sounds/mew.wav").1 (by decide),
    (toClodArg_spec "" "/x/y.wav").2.2.1 (by decide) (Or.inl rfl)⟩




